import Mathlib

/-!
Shallow embedding of the opencode-usage live-aggregation engine
(`src/live/state.ts`, `src/live/calendar.ts`, `src/live/types.ts`,
`src/live/watcher.ts`, `src/types.ts`).

Timestamps are embedded as `Int` (JS epoch milliseconds), token counts as
`Nat`, and monetary cost as `ℚ`.  The effectful inputs `Date.now()` and
`getMonthStartTimestamp()` are threaded as explicit parameters `now` and
`monthStart`.  JS `Array.prototype.sort` (stable since ES2019) is embedded
as `List.insertionSort`, which is also stable, so the two agree on every
input for the total preorders used by the code.  JS `Map` (insertion
ordered) is embedded as an association list, and JS `Set` as a
duplicate-free list in insertion order.
-/

namespace OpencodeUsage

/-- Embedding of `MessageTokens` from `src/types.ts`. -/
structure MessageTokens where
  input : Nat
  output : Nat
  reasoning : Nat
  cacheRead : Nat
  cacheWrite : Nat
deriving DecidableEq

/-- Embedding of `MessageRecord` from `src/types.ts`; `time.created` is flattened to
`timeCreated` and optional JS fields become `Option`. -/
structure MessageRecord where
  id : String
  sessionID : String
  role : String
  timeCreated : Int
  timeCompleted : Option Int
  modelID : Option String
  providerID : Option String
  mode : Option String
  agent : Option String
  cost : Option ℚ
  tokens : Option MessageTokens
deriving DecidableEq

/-- Embedding of `RateLimitEvent` from `src/live/types.ts`. -/
structure RateLimitEvent where
  timestamp : Int
  providerID : String
  modelID : Option String
  errorMessage : String
  partID : String
deriving DecidableEq

/-- Embedding of `TimeSeriesPoint` from `src/live/types.ts`. -/
structure TimeSeriesPoint where
  timestamp : Int
  tokens : Nat
  cost : ℚ
deriving DecidableEq

/-- Embedding of `ProviderBudget` from `src/live/types.ts`. -/
structure ProviderBudget where
  monthlyTokens : Option Nat
  monthlyCost : Option ℚ
deriving DecidableEq

/-- Embedding of `ProviderLimits` from `src/live/types.ts`. -/
structure ProviderLimits where
  tokens5h : Option Nat
  tokensDaily : Option Nat
  cost5h : Option ℚ
  costDaily : Option ℚ
deriving DecidableEq

/-- Embedding of `WindowSize` from `src/live/types.ts`. -/
inductive WindowSize where
  | w5m | w1h | w5h | w24h
deriving DecidableEq

/-- Embedding of `ViewMode` from `src/live/types.ts`. -/
inductive ViewMode where
  | mtd | all
deriving DecidableEq

/-- Embedding of `SortMode` from `src/live/types.ts`. -/
inductive SortMode where
  | cost | tokens | name
deriving DecidableEq

/-- Embedding of `HealthStatus` from `src/live/types.ts`. -/
inductive HealthStatus where
  | ok | warn | throttled
deriving DecidableEq

/-- Embedding of `ModelHealthStatus` from `src/live/types.ts`. -/
inductive ModelHealthStatus where
  | active | stale | error
deriving DecidableEq

/-- Embedding of `ProviderHealth` from `src/live/types.ts`. -/
structure ProviderHealth where
  status : HealthStatus
  rateLimitCount5m : Nat
  lastRateLimit : Option Int
deriving DecidableEq

/-- Embedding of `ModelHealth` from `src/live/types.ts`. -/
structure ModelHealth where
  status : ModelHealthStatus
  lastSeen : Int
  providerThrottled : Bool
deriving DecidableEq

/-- Embedding of `WindowStats` from `src/live/types.ts`. -/
structure WindowStats where
  totalTokens : Nat
  totalInput : Nat
  totalOutput : Nat
  totalReasoning : Nat
  totalCost : ℚ
  messageCount : Nat
deriving DecidableEq

/-- Embedding of `ProviderWindowStats` from `src/live/types.ts`. -/
structure ProviderWindowStats extends WindowStats where
  providerID : String
  health : ProviderHealth
  budgetTokens : Option Nat
  budgetPercent : Option ℚ
  budgetCost : Option ℚ
  budgetCostPercent : Option ℚ
deriving DecidableEq

/-- Embedding of `ModelWindowStats` from `src/live/types.ts`. -/
structure ModelWindowStats extends WindowStats where
  modelID : String
  providerID : String
  health : ModelHealth
  sharePercent : ℚ
  lastSeen : Int
deriving DecidableEq

/-- Embedding of `LiveState` from `src/live/types.ts`.  The JS `Map<string, MessageRecord>`
identity index becomes an insertion-ordered association list; `limits` and
`budgets` (plain JS objects) become association lists keyed by provider. -/
structure LiveState where
  messageIndex : List (String × MessageRecord)
  messages : List MessageRecord
  rateLimitEvents : List RateLimitEvent
  limits : List (String × ProviderLimits)
  budgets : List (String × ProviderBudget)
  currentWindow : WindowSize
  viewMode : ViewMode
  sortMode : SortMode
  lastUpdate : Int
  timeSeries : List TimeSeriesPoint
deriving DecidableEq

/-- Embedding of `STALE_THRESHOLD_MS` from `src/live/state.ts`. -/
def STALE_THRESHOLD_MS : Int := 30 * 60 * 1000

/-- Embedding of `createInitialState` from `src/live/state.ts`; `Date.now()` is the
explicit argument `now`. -/
def createInitialState (now : Int) : LiveState where
  messageIndex := []
  messages := []
  rateLimitEvents := []
  limits := []
  budgets := []
  currentWindow := .w5h
  viewMode := .mtd
  sortMode := .cost
  lastUpdate := now
  timeSeries := []

/-- Embedding of `Map.has` for the association-list embedding of a JS `Map`. -/
def mapHas (m : List (String × MessageRecord)) (k : String) : Bool :=
  m.any (fun kv => kv.1 == k)

/-- Embedding of `Map.set` for the association-list embedding of a JS `Map`: overwrite in
place when the key is present, append otherwise. -/
def mapSet (m : List (String × MessageRecord)) (k : String) (v : MessageRecord) :
    List (String × MessageRecord) :=
  if m.any (fun kv => kv.1 == k) then
    m.map (fun kv => if kv.1 == k then (k, v) else kv)
  else
    m ++ [(k, v)]

/-- Comparator `(a, b) => a.time.created - b.time.created` from `addMessage`
in `src/live/state.ts`, as the corresponding total preorder. -/
def msgLe (a b : MessageRecord) : Prop := a.timeCreated ≤ b.timeCreated

/-- Comparator `(a, b) => a.timestamp - b.timestamp` from `addRateLimitEvent`
in `src/live/state.ts`. -/
def rlLe (a b : RateLimitEvent) : Prop := a.timestamp ≤ b.timestamp

/-- Comparator `(a, b) => a.timestamp - b.timestamp` from `updateTimeSeries`
in `src/live/state.ts`. -/
def tsLe (a b : TimeSeriesPoint) : Prop := a.timestamp ≤ b.timestamp

instance : DecidableRel msgLe := fun a b => Int.decLe a.timeCreated b.timeCreated
instance : DecidableRel rlLe := fun a b => Int.decLe a.timestamp b.timestamp
instance : DecidableRel tsLe := fun a b => Int.decLe a.timestamp b.timestamp

instance : IsTotal MessageRecord msgLe := ⟨fun a b => Int.le_total a.timeCreated b.timeCreated⟩
instance : IsTrans MessageRecord msgLe := ⟨fun _ _ _ h h' => Int.le_trans h h'⟩
instance : IsTotal RateLimitEvent rlLe := ⟨fun a b => Int.le_total a.timestamp b.timestamp⟩
instance : IsTrans RateLimitEvent rlLe := ⟨fun _ _ _ h h' => Int.le_trans h h'⟩
instance : IsTotal TimeSeriesPoint tsLe := ⟨fun a b => Int.le_total a.timestamp b.timestamp⟩
instance : IsTrans TimeSeriesPoint tsLe := ⟨fun _ _ _ h h' => Int.le_trans h h'⟩

/-- In-place update of the first time-series bucket with the given minute
timestamp, adding `tk` tokens and `c` cost: the mutation of `existing` in
`updateTimeSeries` (`src/live/state.ts`). -/
def bucketAdd : List TimeSeriesPoint → Int → Nat → ℚ → List TimeSeriesPoint
  | [], _, _, _ => []
  | p :: rest, ts, tk, c =>
    if p.timestamp == ts then
      { p with tokens := p.tokens + tk, cost := p.cost + c } :: rest
    else
      p :: bucketAdd rest ts tk c

/-- Embedding of `updateTimeSeries` from `src/live/state.ts`.  `Math.floor(created/60000)`
is floor division `Int.fdiv`; `msg.cost || 0` is `Option.getD 0`. -/
def updateTimeSeries (state : LiveState) (msg : MessageRecord) : LiveState :=
  match msg.tokens with
  | none => state
  | some tk =>
    let minuteBucket : Int := msg.timeCreated.fdiv 60000 * 60000
    let totalTokens : Nat := tk.input + tk.output + tk.reasoning
    if state.timeSeries.any (fun p => p.timestamp == minuteBucket) then
      { state with
        timeSeries := bucketAdd state.timeSeries minuteBucket totalTokens (msg.cost.getD 0) }
    else
      { state with
        timeSeries :=
          List.insertionSort tsLe
            (state.timeSeries ++ [⟨minuteBucket, totalTokens, msg.cost.getD 0⟩]) }

/-- Embedding of `addMessage` from `src/live/state.ts`.  Returns the mutated state paired
with the JS boolean result. -/
def addMessage (state : LiveState) (msg : MessageRecord) (now : Int) :
    LiveState × Bool :=
  if mapHas state.messageIndex msg.id then
    (state, false)
  else
    let s := { state with
      messageIndex := mapSet state.messageIndex msg.id msg,
      messages := List.insertionSort msgLe (state.messages ++ [msg]),
      lastUpdate := now }
    (updateTimeSeries s msg, true)

/-- Embedding of `addMessages` from `src/live/state.ts`: per-element `addMessage`,
counting the elements actually added. -/
def addMessages (state : LiveState) (msgs : List MessageRecord) (now : Int) :
    LiveState × Nat :=
  msgs.foldl
    (fun acc msg =>
      let r := addMessage acc.1 msg now
      (r.1, acc.2 + if r.2 then 1 else 0))
    (state, 0)

/-- Embedding of `addRateLimitEvent` from `src/live/state.ts`. -/
def addRateLimitEvent (state : LiveState) (event : RateLimitEvent) : LiveState :=
  { state with
    rateLimitEvents := List.insertionSort rlLe (state.rateLimitEvents ++ [event]) }

/-- Embedding of `getMessagesInWindow` from `src/live/state.ts`. -/
def getMessagesInWindow (state : LiveState) (windowMs now : Int) : List MessageRecord :=
  state.messages.filter (fun m => now - windowMs ≤ m.timeCreated)

/-- Embedding of `getMessagesMTD` from `src/live/state.ts`; the effectful
`getMonthStartTimestamp()` call is the explicit argument `monthStart`. -/
def getMessagesMTD (state : LiveState) (monthStart : Int) : List MessageRecord :=
  state.messages.filter (fun m => monthStart ≤ m.timeCreated)

/-- Embedding of `getAllMessages` from `src/live/state.ts`. -/
def getAllMessages (state : LiveState) : List MessageRecord :=
  state.messages

/-- Embedding of `getRateLimitsInWindow` from `src/live/state.ts`. -/
def getRateLimitsInWindow (state : LiveState) (windowMs now : Int) : List RateLimitEvent :=
  state.rateLimitEvents.filter (fun e => now - windowMs ≤ e.timestamp)

/-- Embedding of `computeWindowStats` from `src/live/state.ts`: a left fold that skips
messages without token data and defaults an absent cost to `0`. -/
def computeWindowStats (messages : List MessageRecord) : WindowStats :=
  messages.foldl
    (fun acc msg =>
      match msg.tokens with
      | none => acc
      | some tk =>
        { totalTokens := acc.totalTokens + (tk.input + tk.output + tk.reasoning)
          totalInput := acc.totalInput + tk.input
          totalOutput := acc.totalOutput + tk.output
          totalReasoning := acc.totalReasoning + tk.reasoning
          totalCost := acc.totalCost + msg.cost.getD 0
          messageCount := acc.messageCount + 1 })
    ⟨0, 0, 0, 0, 0, 0⟩

/-- Embedding of `getWindowStats` from `src/live/state.ts`. -/
def getWindowStats (state : LiveState) (windowMs now : Int) : WindowStats :=
  computeWindowStats (getMessagesInWindow state windowMs now)

/-- Embedding of `getMTDStats` from `src/live/state.ts`. -/
def getMTDStats (state : LiveState) (monthStart : Int) : WindowStats :=
  computeWindowStats (getMessagesMTD state monthStart)

/-- Embedding of `getAllTimeStats` from `src/live/state.ts`. -/
def getAllTimeStats (state : LiveState) : WindowStats :=
  computeWindowStats state.messages

/-- Embedding of `computeHealthStatus` from `src/live/state.ts`.  The JS truthiness test
`lastRateLimit && ...` is `false` for both `undefined` and the timestamp `0`,
hence the explicit `t ≠ 0` conjunct. -/
def computeHealthStatus (now : Int) (rateLimitCount5m : Nat)
    (lastRateLimit : Option Int) : HealthStatus :=
  if 3 ≤ rateLimitCount5m then .throttled
  else if 1 ≤ rateLimitCount5m then .warn
  else
    match lastRateLimit with
    | some t => if t ≠ 0 ∧ now - t < 5 * 60 * 1000 then .warn else .ok
    | none => .ok

/-- Embedding of `computeModelHealthStatus` from `src/live/state.ts`. -/
def computeModelHealthStatus (now lastSeen : Int) (providerThrottled : Bool) :
    ModelHealthStatus :=
  if providerThrottled then .error
  else if STALE_THRESHOLD_MS < now - lastSeen then .stale
  else .active

/-- Normalisation `x || "unknown"` applied to an optional JS string: both
`undefined` and the empty string are falsy. -/
def orUnknown (s : Option String) : String :=
  match s with
  | some v => if v == "" then "unknown" else v
  | none => "unknown"

/-- JS truthiness filter for an optional numeric budget field
(`budget?.monthlyTokens` is falsy when absent or `0`). -/
def truthyNat (o : Option Nat) : Option Nat :=
  match o with
  | some n => if n == 0 then none else some n
  | none => none

/-- JS truthiness filter for an optional monetary budget field. -/
def truthyRat (o : Option ℚ) : Option ℚ :=
  match o with
  | some q => if q == 0 then none else some q
  | none => none

/-- One step of the `Map`-based grouping loops in `src/live/state.ts`:
append `x` to the group keyed `key`, or create that group at the end. -/
def pushGroup {α : Type} (groups : List (String × List α)) (key : String) (x : α) :
    List (String × List α) :=
  match groups with
  | [] => [(key, [x])]
  | (k, l) :: rest =>
    if k == key then (k, l ++ [x]) :: rest
    else (k, l) :: pushGroup rest key x

/-- The grouping loops of `computeProviderStats` / `computeModelStats`
(`src/live/state.ts`): a JS `Map` built by `groups.get(key) || []` plus push,
keys in first-occurrence order, values in encounter order. -/
def groupByKey {α : Type} (key : α → String) (xs : List α) : List (String × List α) :=
  xs.foldl (fun g x => pushGroup g (key x) x) []

/-- Embedding of `groups.get(k) || []` on the association-list embedding of a JS `Map`. -/
def lookupGroup {α : Type} (groups : List (String × List α)) (k : String) : List α :=
  (groups.lookup k).getD []

/-- The `Set`-union of provider keys in `computeProviderStats`
(`src/live/state.ts`): concatenation deduplicated in first-occurrence order. -/
def dedupKeys (l : List String) : List String :=
  l.foldl (fun acc k => if acc.contains k then acc else acc ++ [k]) []

/-- Body of the `for (const providerID of allProviders)` loop of
`computeProviderStats` (`src/live/state.ts`). -/
def providerEntry (state : LiveState) (now : Int)
    (groups : List (String × List MessageRecord))
    (rateLimitsByProvider : List (String × List RateLimitEvent))
    (providerID : String) : ProviderWindowStats :=
  let providerMsgs := lookupGroup groups providerID
  let stats := computeWindowStats providerMsgs
  let providerRateLimits := lookupGroup rateLimitsByProvider providerID
  let lastRateLimit := (providerRateLimits.map (·.timestamp)).max?
  let health : ProviderHealth :=
    { status := computeHealthStatus now providerRateLimits.length lastRateLimit
      rateLimitCount5m := providerRateLimits.length
      lastRateLimit := lastRateLimit }
  let budget := state.budgets.lookup providerID
  let budgetTokens := truthyNat (budget.bind (·.monthlyTokens))
  let budgetPercent := budgetTokens.map (fun mt => (stats.totalTokens : ℚ) / (mt : ℚ) * 100)
  let budgetCost := truthyRat (budget.bind (·.monthlyCost))
  let budgetCostPercent := budgetCost.map (fun mc => stats.totalCost / mc * 100)
  { toWindowStats := stats
    providerID := providerID
    health := health
    budgetTokens := budgetTokens
    budgetPercent := budgetPercent
    budgetCost := budgetCost
    budgetCostPercent := budgetCostPercent }

/-- Descending-by-total-cost comparator `(a, b) => b.totalCost - a.totalCost`
used on provider stats (`src/live/state.ts`). -/
def provCostGe (a b : ProviderWindowStats) : Prop := b.totalCost ≤ a.totalCost

instance : DecidableRel provCostGe := fun a b => Rat.instDecidableLe b.totalCost a.totalCost
instance : IsTotal ProviderWindowStats provCostGe := ⟨fun a b => le_total b.totalCost a.totalCost⟩
instance : IsTrans ProviderWindowStats provCostGe := ⟨fun _ _ _ h h' => le_trans h' h⟩

/-- Embedding of `computeProviderStats` from `src/live/state.ts`. -/
def computeProviderStats (state : LiveState) (messages : List MessageRecord)
    (now : Int) : List ProviderWindowStats :=
  let rateLimits5m := getRateLimitsInWindow state (5 * 60 * 1000) now
  let groups := groupByKey (fun m => orUnknown m.providerID) messages
  let rateLimitsByProvider := groupByKey (fun e => e.providerID) rateLimits5m
  let allProviders := dedupKeys
    (groups.map Prod.fst ++ rateLimitsByProvider.map Prod.fst ++ state.budgets.map Prod.fst)
  let results := allProviders.map (providerEntry state now groups rateLimitsByProvider)
  List.insertionSort provCostGe results

/-- Embedding of `getProviderStatsMTD` from `src/live/state.ts`. -/
def getProviderStatsMTD (state : LiveState) (monthStart now : Int) :
    List ProviderWindowStats :=
  computeProviderStats state (getMessagesMTD state monthStart) now

/-- Embedding of `getProviderStatsAll` from `src/live/state.ts`. -/
def getProviderStatsAll (state : LiveState) (now : Int) : List ProviderWindowStats :=
  computeProviderStats state state.messages now

/-- The throttled-provider `Set` of `computeModelStats`
(`src/live/state.ts`): providers appearing in the trailing 5-minute window
with at least 3 events there, in insertion order. -/
def throttledProviders (rateLimits5m : List RateLimitEvent) : List String :=
  rateLimits5m.foldl
    (fun acc event =>
      if 3 ≤ (rateLimits5m.filter (fun e => e.providerID == event.providerID)).length then
        if acc.contains event.providerID then acc else acc ++ [event.providerID]
      else acc)
    []

/-- Body of the `for (const [modelID, msgs] of groups)` loop of
`computeModelStats` (`src/live/state.ts`).  `Math.max(...)` over the group's
creation times is `max?.getD 0`; the group is never empty so the default is
never read; `msgs[0]?.providerID || "unknown"` is `orUnknown` of
`head?.bind`. -/
def modelEntry (now : Int) (throttled : List String) (totalStats : WindowStats)
    (g : String × List MessageRecord) : ModelWindowStats :=
  let stats := computeWindowStats g.2
  let providerID := orUnknown (g.2.head?.bind (·.providerID))
  let lastSeen := ((g.2.map (·.timeCreated)).max?).getD 0
  let providerThrottled := throttled.contains providerID
  let sharePercent : ℚ :=
    if 0 < totalStats.totalTokens then
      (stats.totalTokens : ℚ) / (totalStats.totalTokens : ℚ) * 100
    else 0
  { toWindowStats := stats
    modelID := g.1
    providerID := providerID
    health :=
      { status := computeModelHealthStatus now lastSeen providerThrottled
        lastSeen := lastSeen
        providerThrottled := providerThrottled }
    sharePercent := sharePercent
    lastSeen := lastSeen }

/-- Descending-by-total-cost comparator on model stats. -/
def modelCostGe (a b : ModelWindowStats) : Prop := b.totalCost ≤ a.totalCost

/-- Descending-by-total-tokens comparator on model stats. -/
def modelTokensGe (a b : ModelWindowStats) : Prop := b.totalTokens ≤ a.totalTokens

/-- Ascending `localeCompare` comparator on model ids, embedded as the
lexicographic order on strings. -/
def modelNameLe (a b : ModelWindowStats) : Prop := a.modelID ≤ b.modelID

instance : DecidableRel modelCostGe := fun a b => Rat.instDecidableLe b.totalCost a.totalCost
instance : IsTotal ModelWindowStats modelCostGe := ⟨fun a b => le_total b.totalCost a.totalCost⟩
instance : IsTrans ModelWindowStats modelCostGe := ⟨fun _ _ _ h h' => le_trans h' h⟩
instance : DecidableRel modelTokensGe := fun a b => Nat.decLe b.totalTokens a.totalTokens
instance : IsTotal ModelWindowStats modelTokensGe := ⟨fun a b => Nat.le_total b.totalTokens a.totalTokens⟩
instance : IsTrans ModelWindowStats modelTokensGe := ⟨fun _ _ _ h h' => Nat.le_trans h' h⟩
instance : DecidableRel modelNameLe := fun a b =>
  (inferInstance : Decidable (a.modelID ≤ b.modelID))
instance : IsTotal ModelWindowStats modelNameLe := ⟨fun a b => le_total a.modelID b.modelID⟩
instance : IsTrans ModelWindowStats modelNameLe := ⟨fun _ _ _ h h' => le_trans h h'⟩

/-- Embedding of `computeModelStats` from `src/live/state.ts`. -/
def computeModelStats (state : LiveState) (messages : List MessageRecord)
    (now : Int) (sortMode : SortMode) : List ModelWindowStats :=
  let rateLimits5m := getRateLimitsInWindow state (5 * 60 * 1000) now
  let throttled := throttledProviders rateLimits5m
  let groups := groupByKey (fun m => orUnknown m.modelID) messages
  let totalStats := computeWindowStats messages
  let results := groups.map (modelEntry now throttled totalStats)
  match sortMode with
  | .cost => List.insertionSort modelCostGe results
  | .tokens => List.insertionSort modelTokensGe results
  | .name => List.insertionSort modelNameLe results

/-- Embedding of `getModelStatsMTD` from `src/live/state.ts`. -/
def getModelStatsMTD (state : LiveState) (monthStart now : Int) (sortMode : SortMode) :
    List ModelWindowStats :=
  computeModelStats state (getMessagesMTD state monthStart) now sortMode

/-- Embedding of `getModelStatsAll` from `src/live/state.ts`. -/
def getModelStatsAll (state : LiveState) (now : Int) (sortMode : SortMode) :
    List ModelWindowStats :=
  computeModelStats state state.messages now sortMode

/-- Default `maxAgeMs` of `pruneOldData` (`src/live/state.ts`): 90 days. -/
def PRUNE_DEFAULT_MAX_AGE_MS : Int := 90 * 24 * 60 * 60 * 1000

/-- Rebuild of the identity index in `pruneOldData`:
`new Map(messages.map(m => [m.id, m]))`, i.e. insertion of each pair in
order with JS `Map.set` semantics. -/
def buildIndex (messages : List MessageRecord) : List (String × MessageRecord) :=
  messages.foldl (fun acc m => mapSet acc m.id m) []

/-- Embedding of `pruneOldData` from `src/live/state.ts`. -/
def pruneOldData (state : LiveState) (now maxAgeMs : Int) : LiveState :=
  let cutoff := now - maxAgeMs
  let messages := state.messages.filter (fun m => cutoff ≤ m.timeCreated)
  { state with
    messages := messages
    messageIndex := buildIndex messages
    rateLimitEvents := state.rateLimitEvents.filter (fun e => cutoff ≤ e.timestamp)
    timeSeries := state.timeSeries.filter (fun p => cutoff ≤ p.timestamp) }

/-- Embedding of `PartRecord.state` from `src/live/watcher.ts`. -/
structure PartStateRec where
  status : Option String
  output : Option String
  error : Option String
deriving DecidableEq

/-- Embedding of `PartRecord` from `src/live/watcher.ts`. -/
structure PartRecord where
  id : String
  sessionID : String
  messageID : String
  type : String
  tool : Option String
  state : Option PartStateRec
deriving DecidableEq

/-- Whether `needle` occurs at the start of `haystack` (on character lists). -/
def charsStartWith : List Char → List Char → Bool
  | _, [] => true
  | [], _ :: _ => false
  | c :: cs, d :: ds => c == d && charsStartWith cs ds

/-- Whether `needle` occurs contiguously anywhere in `haystack`. -/
def charsContain : List Char → List Char → Bool
  | [], needle => charsStartWith [] needle
  | c :: cs, needle => charsStartWith (c :: cs) needle || charsContain cs needle

/-- Substring containment on strings. -/
def strContains (haystack needle : String) : Bool :=
  charsContain haystack.toList needle.toList

/-- JS `toLowerCase()`, embedded as the per-character lowering map (the
patterns and hints it is applied against are all ASCII). -/
def strToLower (s : String) : String := ⟨s.data.map Char.toLower⟩

/-- Case-insensitive substring test: the embedding of `pattern.test(text)`
for the fixed-literal `/.../i` regexes of `src/live/watcher.ts` (each stored
here already in lower case). -/
def regexTestCI (pat text : String) : Bool :=
  strContains (strToLower text) pat

/-- Embedding of `RATE_LIMIT_PATTERNS` from `src/live/watcher.ts`, each case-insensitive
regex represented by its lower-case literal. -/
def RATE_LIMIT_PATTERNS : List String :=
  ["429", "too many requests", "rate limit", "throttl", "quota exceeded", "capacity"]

/-- Embedding of `PROVIDER_HINTS` from `src/live/watcher.ts`, in `Object.entries` order. -/
def PROVIDER_HINTS : List (String × List String) :=
  [("anthropic", ["claude", "anthropic", "sonnet", "opus", "haiku"]),
   ("openai", ["openai", "gpt", "o1", "o3", "chatgpt"]),
   ("google", ["google", "gemini", "palm", "vertex"]),
   ("openrouter", ["openrouter"])]

/-- Embedding of `detectProvider` from `src/live/watcher.ts`. -/
def detectProvider (text : String) (tool : Option String) : String :=
  let lower := strToLower (text ++ tool.getD "")
  match PROVIDER_HINTS.find? (fun pr => pr.2.any (fun h => strContains lower h)) with
  | some pr => pr.1
  | none => "unknown"

/-- Embedding of `isRateLimitError` from `src/live/watcher.ts`.  `x || ""` on an optional
JS string is `Option.getD ""` (the empty string is already falsy), and
`[a, b].join(" ")` is `a ++ " " ++ b`. -/
def isRateLimitError (part : PartRecord) : Bool :=
  let status := part.state.bind (·.status)
  if ¬(status == some "completed") ∧ ¬(status == some "error") then false
  else
    let textToCheck :=
      ((part.state.bind (·.output)).getD "") ++ " " ++ ((part.state.bind (·.error)).getD "")
    RATE_LIMIT_PATTERNS.any (fun pat => regexTestCI pat textToCheck)

/-- Health-status rule exactly as the specification words it (§4.4): count
at least 3 in the trailing 5-minute window is throttled, at least 1 is warn,
else warn when a last-rate-limit timestamp exists within the last 5 minutes,
else ok. -/
def healthStatusSpec (now : Int) (count : Nat) (lastRateLimit : Option Int) :
    HealthStatus :=
  if 3 ≤ count then .throttled
  else if 1 ≤ count then .warn
  else
    match lastRateLimit with
    | some t => if now - t < 5 * 60 * 1000 then .warn else .ok
    | none => .ok

/-- Rate-limit incident classification exactly as the specification words it
(§6): status is exactly "completed" or "error", and the combined output/error
text matches one of the rate-limit patterns case-insensitively. -/
def rateLimitIncidentSpec (part : PartRecord) : Prop :=
  (part.state.bind (·.status) = some "completed" ∨
    part.state.bind (·.status) = some "error") ∧
  ∃ pat ∈ RATE_LIMIT_PATTERNS,
    strContains
      (strToLower ((part.state.bind (·.output)).getD "" ++ " " ++
        (part.state.bind (·.error)).getD "")) pat = true

/-! ### Helper definitions and lemmas for the verification -/

/-- The states reachable from `createInitialState` through the ingestion
operations of `src/live/state.ts` (no pruning). -/
inductive Reach : LiveState → Prop where
  | init (now : Int) : Reach (createInitialState now)
  | addMsg {s : LiveState} (msg : MessageRecord) (now : Int) :
      Reach s → Reach (addMessage s msg now).1
  | addMsgs {s : LiveState} (msgs : List MessageRecord) (now : Int) :
      Reach s → Reach (addMessages s msgs now).1
  | addRL {s : LiveState} (e : RateLimitEvent) :
      Reach s → Reach (addRateLimitEvent s e)

/-- Concrete message without token data, for instantiating theorems. -/
def cMsgA : MessageRecord :=
  ⟨"a", "ses", "assistant", 0, none, none, none, none, none, none, none⟩

/-- Concrete message with token data but no cost, for instantiating theorems. -/
def cMsgTok : MessageRecord :=
  ⟨"t", "ses", "assistant", 60500, none, some "m1", some "p", none, none, none,
    some ⟨1, 2, 3, 0, 0⟩⟩

/-- Concrete rate-limit events for provider "p", for instantiating theorems. -/
def cEvt1 : RateLimitEvent := ⟨100, "p", none, "429", "prt_1"⟩

def cEvt2 : RateLimitEvent := ⟨110, "p", none, "429", "prt_2"⟩

def cEvt3 : RateLimitEvent := ⟨120, "p", none, "429", "prt_3"⟩

/-- Concrete state holding three rate-limit events for provider "p". -/
def cStateRL : LiveState :=
  { createInitialState 0 with rateLimitEvents := [cEvt1, cEvt2, cEvt3] }

/-- Concrete state with a budget for provider "z" and no traffic. -/
def cStateBudget : LiveState :=
  { createInitialState 0 with budgets := [("z", ⟨none, none⟩)] }

/-- The provider-stats entry of provider "p" in the concrete state
`cStateRL`, for instantiating theorems. -/
def cProviderEntry : ProviderWindowStats :=
  providerEntry cStateRL 200 (groupByKey (fun m => orUnknown m.providerID) [])
    (groupByKey (fun e => e.providerID) (getRateLimitsInWindow cStateRL (5 * 60 * 1000) 200)) "p"

/-- The model-stats entry of the group "unknown" over `[cMsgA]`, for
instantiating theorems. -/
def cModelEntry : ModelWindowStats :=
  modelEntry 200 (throttledProviders (getRateLimitsInWindow cStateRL (5 * 60 * 1000) 200))
    (computeWindowStats [cMsgA]) ("unknown", [cMsgA])

/-- Concrete part record carrying a 429 error, for instantiating theorems. -/
def cPart429 : PartRecord :=
  ⟨"prt_1", "s", "m", "tool", none,
    some ⟨some "error", none, some "HTTP 429 Too Many Requests"⟩⟩

/-- First message of the end-to-end scenario of spec §8 (`id:"a"`,
`createdAt: monthStart()+1000`, tokens 10/20/0, cost 0.01). -/
def scenarioMsgA (ms : Int) : MessageRecord :=
  ⟨"a", "", "", ms + 1000, none, none, some "openai", none, none, some 0.01,
    some ⟨10, 20, 0, 0, 0⟩⟩

/-- Second message of the end-to-end scenario of spec §8 (`id:"b"`,
`createdAt: monthStart()-1000`, tokens 5/5/0, cost 0.01). -/
def scenarioMsgB (ms : Int) : MessageRecord :=
  ⟨"b", "", "", ms - 1000, none, none, some "openai", none, none, some 0.01,
    some ⟨5, 5, 0, 0, 0⟩⟩

/-- Whether a message carries token data. -/
def hasTokenData (m : MessageRecord) : Bool := m.tokens.isSome

/-- Combined token count of a message (`0` without token data). -/
def msgTokenCount (m : MessageRecord) : Nat :=
  match m.tokens with
  | some tk => tk.input + tk.output + tk.reasoning
  | none => 0

/-- Input tokens of a message (`0` without token data). -/
def msgInput (m : MessageRecord) : Nat :=
  match m.tokens with
  | some tk => tk.input
  | none => 0

/-- Output tokens of a message (`0` without token data). -/
def msgOutput (m : MessageRecord) : Nat :=
  match m.tokens with
  | some tk => tk.output
  | none => 0

/-- Reasoning tokens of a message (`0` without token data). -/
def msgReasoning (m : MessageRecord) : Nat :=
  match m.tokens with
  | some tk => tk.reasoning
  | none => 0

/-- Cost of a message with the absent case defaulted to `0`. -/
def msgCostD (m : MessageRecord) : ℚ := m.cost.getD 0

/-- The reducer of `computeWindowStats`, named for the proofs. -/
def wsStep (acc : WindowStats) (msg : MessageRecord) : WindowStats :=
  match msg.tokens with
  | none => acc
  | some tk =>
    { totalTokens := acc.totalTokens + (tk.input + tk.output + tk.reasoning)
      totalInput := acc.totalInput + tk.input
      totalOutput := acc.totalOutput + tk.output
      totalReasoning := acc.totalReasoning + tk.reasoning
      totalCost := acc.totalCost + msg.cost.getD 0
      messageCount := acc.messageCount + 1 }

theorem computeWindowStats_eq_foldl (msgs : List MessageRecord) :
    computeWindowStats msgs = msgs.foldl wsStep ⟨0, 0, 0, 0, 0, 0⟩ := by
  rfl

theorem foldl_wsStep (msgs : List MessageRecord) : ∀ acc : WindowStats,
    msgs.foldl wsStep acc =
      ⟨acc.totalTokens + ((msgs.filter hasTokenData).map msgTokenCount).sum,
       acc.totalInput + ((msgs.filter hasTokenData).map msgInput).sum,
       acc.totalOutput + ((msgs.filter hasTokenData).map msgOutput).sum,
       acc.totalReasoning + ((msgs.filter hasTokenData).map msgReasoning).sum,
       acc.totalCost + ((msgs.filter hasTokenData).map msgCostD).sum,
       acc.messageCount + (msgs.filter hasTokenData).length⟩ := by
  induction msgs with
  | nil => intro acc; simp
  | cons m ms ih =>
    intro acc
    rcases h : m.tokens with _ | tk
    · have hh : hasTokenData m = false := by simp [hasTokenData, h]
      have hstep : wsStep acc m = acc := by simp [wsStep, h]
      simp only [List.foldl_cons, hstep, ih, List.filter_cons, hh]
      simp
    · have hh : hasTokenData m = true := by simp [hasTokenData, h]
      simp only [List.foldl_cons, ih, List.filter_cons, hh, if_true]
      simp only [wsStep, h, List.map_cons, List.sum_cons, List.length_cons,
        WindowStats.mk.injEq, msgTokenCount, msgInput, msgOutput, msgReasoning, msgCostD]
      refine ⟨by omega, by omega, by omega, by omega, by ring, by omega⟩

/-- Closed form of `computeWindowStats`: every field is a sum (or count)
over exactly the token-bearing messages of the input. -/
theorem computeWindowStats_closed (msgs : List MessageRecord) :
    computeWindowStats msgs =
      ⟨((msgs.filter hasTokenData).map msgTokenCount).sum,
       ((msgs.filter hasTokenData).map msgInput).sum,
       ((msgs.filter hasTokenData).map msgOutput).sum,
       ((msgs.filter hasTokenData).map msgReasoning).sum,
       ((msgs.filter hasTokenData).map msgCostD).sum,
       (msgs.filter hasTokenData).length⟩ := by
  rw [computeWindowStats_eq_foldl, foldl_wsStep]
  simp

/-- Embedding of `computeWindowStats` is invariant under permutation of its input. -/
theorem computeWindowStats_perm {l₁ l₂ : List MessageRecord} (h : l₁.Perm l₂) :
    computeWindowStats l₁ = computeWindowStats l₂ := by
  have hf := h.filter hasTokenData
  rw [computeWindowStats_closed, computeWindowStats_closed]
  rw [(hf.map msgTokenCount).sum_eq, (hf.map msgInput).sum_eq,
    (hf.map msgOutput).sum_eq, (hf.map msgReasoning).sum_eq,
    (hf.map msgCostD).sum_eq, hf.length_eq]

theorem lookupGroup_pushGroup {α : Type} (g : List (String × List α)) (k' k : String)
    (x : α) :
    lookupGroup (pushGroup g k' x) k =
      lookupGroup g k ++ (if k = k' then [x] else []) := by
  induction g with
  | nil =>
    by_cases h : k = k'
    · subst h; simp [pushGroup, lookupGroup, List.lookup]
    · have hb : (k == k') = false := beq_eq_false_iff_ne.mpr h
      simp [pushGroup, lookupGroup, List.lookup, hb, h]
  | cons p g ih =>
    obtain ⟨kk, l⟩ := p
    by_cases hkk : kk = k'
    · subst hkk
      by_cases hk : k = kk
      · subst hk
        simp [pushGroup, lookupGroup, List.lookup]
      · have hb : (k == kk) = false := beq_eq_false_iff_ne.mpr hk
        simp [pushGroup, lookupGroup, List.lookup, hb, hk]
    · have hb' : (kk == k') = false := beq_eq_false_iff_ne.mpr hkk
      by_cases hk : k = kk
      · subst hk
        have hne : k ≠ k' := fun e => hkk e
        simp [pushGroup, lookupGroup, List.lookup, hb', hne]
      · have hb : (k == kk) = false := beq_eq_false_iff_ne.mpr hk
        simpa [pushGroup, lookupGroup, List.lookup, hb', hb] using ih

theorem lookupGroup_groupByKey {α : Type} (key : α → String) (xs : List α) (k : String) :
    lookupGroup (groupByKey key xs) k = xs.filter (fun x => key x == k) := by
  suffices h : ∀ g : List (String × List α),
      lookupGroup (xs.foldl (fun g x => pushGroup g (key x) x) g) k =
        lookupGroup g k ++ xs.filter (fun x => key x == k) by
    simpa [groupByKey, lookupGroup] using h []
  induction xs with
  | nil => intro g; simp
  | cons x xs ih =>
    intro g
    simp only [List.foldl_cons, ih, lookupGroup_pushGroup, List.filter_cons]
    by_cases h : key x = k
    · simp [h, beq_iff_eq]
    · have : (key x == k) = false := by simp [beq_eq_false_iff_ne, h]
      simp [this, if_neg (fun e : k = key x => h e.symm)]

theorem keys_pushGroup {α : Type} (g : List (String × List α)) (k' : String) (x : α) :
    (pushGroup g k' x).map Prod.fst =
      if k' ∈ g.map Prod.fst then g.map Prod.fst else g.map Prod.fst ++ [k'] := by
  induction g with
  | nil => simp [pushGroup]
  | cons p g ih =>
    obtain ⟨kk, l⟩ := p
    by_cases h : kk = k'
    · subst h; simp [pushGroup]
    · have hb : (kk == k') = false := beq_eq_false_iff_ne.mpr h
      have hne : (k' = kk) ↔ False := iff_false_intro (fun e => h e.symm)
      by_cases h2 : k' ∈ g.map Prod.fst <;>
        simp [pushGroup, hb, ih, h2, hne]

theorem mem_keys_pushGroup {α : Type} (g : List (String × List α)) (k' k : String)
    (x : α) :
    k ∈ (pushGroup g k' x).map Prod.fst ↔ k ∈ g.map Prod.fst ∨ k = k' := by
  rw [keys_pushGroup]
  by_cases h : k' ∈ g.map Prod.fst
  · simp only [if_pos h]
    constructor
    · exact Or.inl
    · rintro (hk | rfl)
      · exact hk
      · exact h
  · simp [if_neg h]

theorem mem_keys_groupByKey {α : Type} (key : α → String) (xs : List α) (k : String) :
    k ∈ (groupByKey key xs).map Prod.fst ↔ ∃ x ∈ xs, key x = k := by
  suffices h : ∀ g : List (String × List α),
      k ∈ ((xs.foldl (fun g x => pushGroup g (key x) x) g).map Prod.fst) ↔
        k ∈ g.map Prod.fst ∨ ∃ x ∈ xs, key x = k by
    simpa [groupByKey] using h []
  induction xs with
  | nil => intro g; simp
  | cons x xs ih =>
    intro g
    simp only [List.foldl_cons, ih, mem_keys_pushGroup, List.mem_cons]
    constructor
    · rintro ((hg | rfl) | ⟨y, hy, hk⟩)
      · exact Or.inl hg
      · exact Or.inr ⟨x, Or.inl rfl, rfl⟩
      · exact Or.inr ⟨y, Or.inr hy, hk⟩
    · rintro (hg | ⟨y, hy | hy, hk⟩)
      · exact Or.inl (Or.inl hg)
      · subst hy; exact Or.inl (Or.inr hk.symm)
      · exact Or.inr ⟨y, hy, hk⟩

theorem keys_groupByKey_nodup {α : Type} (key : α → String) (xs : List α) :
    ((groupByKey key xs).map Prod.fst).Nodup := by
  suffices h : ∀ g : List (String × List α), (g.map Prod.fst).Nodup →
      ((xs.foldl (fun g x => pushGroup g (key x) x) g).map Prod.fst).Nodup by
    exact h [] (by simp)
  induction xs with
  | nil => intro g hg; simpa using hg
  | cons x xs ih =>
    intro g hg
    simp only [List.foldl_cons]
    refine ih _ ?_
    rw [keys_pushGroup]
    by_cases h : key x ∈ g.map Prod.fst
    · simpa [if_pos h] using hg
    · rw [if_neg h]
      exact hg.append (List.nodup_singleton _)
        (by rw [List.disjoint_singleton]; exact h)

theorem lookup_eq_of_mem_of_nodup {α : Type} {g : List (String × List α)}
    (hnd : (g.map Prod.fst).Nodup) {p : String × List α} (hp : p ∈ g) :
    g.lookup p.1 = some p.2 := by
  induction g with
  | nil => cases hp
  | cons q g ih =>
    rcases List.mem_cons.mp hp with rfl | hmem
    · simp [List.lookup]
    · have hq : q.1 ≠ p.1 := by
        intro he
        have : p.1 ∈ g.map Prod.fst := List.mem_map_of_mem Prod.fst hmem
        rw [← he] at this
        exact (List.nodup_cons.mp (by simpa using hnd)).1 this
      have : (p.1 == q.1) = false := by
        simp [beq_eq_false_iff_ne]; exact fun e => hq e.symm
      simp only [List.lookup, this]
      exact ih (List.nodup_cons.mp (by simpa using hnd)).2 hmem

/-- Every group produced by the `Map`-based grouping holds exactly the input
elements with that key, and is nonempty. -/
theorem mem_groupByKey {α : Type} (key : α → String) (xs : List α)
    {p : String × List α} (hp : p ∈ groupByKey key xs) :
    p.2 = xs.filter (fun x => key x == p.1) ∧ p.2 ≠ [] := by
  have hl := lookup_eq_of_mem_of_nodup (keys_groupByKey_nodup key xs) hp
  have h2 := lookupGroup_groupByKey key xs p.1
  rw [lookupGroup, hl] at h2
  simp only [Option.getD_some] at h2
  refine ⟨h2, ?_⟩
  have hk : p.1 ∈ (groupByKey key xs).map Prod.fst := List.mem_map_of_mem Prod.fst hp
  obtain ⟨x, hx, hkx⟩ := (mem_keys_groupByKey key xs p.1).mp hk
  intro hnil
  have hmem : x ∈ xs.filter (fun x => key x == p.1) :=
    List.mem_filter.mpr ⟨hx, by simp [hkx]⟩
  rw [← h2, hnil] at hmem
  simp at hmem

theorem mem_dedupKeys (l : List String) (k : String) :
    k ∈ dedupKeys l ↔ k ∈ l := by
  suffices h : ∀ acc : List String,
      k ∈ l.foldl (fun acc k => if acc.contains k then acc else acc ++ [k]) acc ↔
        k ∈ acc ∨ k ∈ l by
    simpa [dedupKeys] using h []
  induction l with
  | nil => intro acc; simp
  | cons x l ih =>
    intro acc
    simp only [List.foldl_cons]
    by_cases h : acc.contains x
    · rw [if_pos h, ih]
      have hx : x ∈ acc := by simpa using h
      constructor
      · rintro (ha | hl)
        · exact Or.inl ha
        · exact Or.inr (List.mem_cons_of_mem x hl)
      · rintro (ha | hm)
        · exact Or.inl ha
        · rcases List.mem_cons.mp hm with rfl | hl
          · exact Or.inl hx
          · exact Or.inr hl
    · rw [if_neg h, ih]
      simp only [List.mem_append, List.mem_singleton, List.mem_cons]
      tauto

theorem mapHas_mapSet_self (m : List (String × MessageRecord)) (k : String)
    (v : MessageRecord) : mapHas (mapSet m k v) k = true := by
  unfold mapSet
  by_cases h : m.any (fun kv => kv.1 == k)
  · rw [if_pos h]
    unfold mapHas
    rcases List.any_eq_true.mp h with ⟨kv, hkv, hb⟩
    refine List.any_eq_true.mpr ⟨(k, v), ?_, by simp⟩
    refine List.mem_map.mpr ⟨kv, hkv, ?_⟩
    rw [if_pos hb]
  · rw [if_neg h]
    unfold mapHas
    exact List.any_eq_true.mpr ⟨(k, v), by simp⟩

theorem keys_mapSet (m : List (String × MessageRecord)) (k : String) (v : MessageRecord) :
    (mapSet m k v).map Prod.fst =
      if m.any (fun kv => kv.1 == k) then m.map Prod.fst else m.map Prod.fst ++ [k] := by
  unfold mapSet
  by_cases h : m.any (fun kv => kv.1 == k)
  · rw [if_pos h, if_pos h, List.map_map]
    apply List.map_congr_left
    intro kv _
    by_cases hb : kv.1 == k
    · simp [hb, Function.comp]
      exact (beq_iff_eq.mp hb).symm
    · simp [hb, Function.comp]
  · rw [if_neg h, if_neg h]
    simp

theorem mem_keys_mapSet (m : List (String × MessageRecord)) (k k' : String)
    (v : MessageRecord) :
    k' ∈ (mapSet m k v).map Prod.fst ↔ k' ∈ m.map Prod.fst ∨ k' = k := by
  rw [keys_mapSet]
  by_cases h : m.any (fun kv => kv.1 == k)
  · rw [if_pos h]
    rcases List.any_eq_true.mp h with ⟨kv, hkv, hb⟩
    have hk : k ∈ m.map Prod.fst := by
      rw [← beq_iff_eq.mp hb]
      exact List.mem_map_of_mem Prod.fst hkv
    constructor
    · exact Or.inl
    · rintro (hm | rfl)
      · exact hm
      · exact hk
  · rw [if_neg h]; simp

theorem mem_keys_buildIndex (msgs : List MessageRecord) (k : String) :
    k ∈ (buildIndex msgs).map Prod.fst ↔ k ∈ msgs.map (·.id) := by
  suffices h : ∀ acc : List (String × MessageRecord),
      k ∈ ((msgs.foldl (fun acc m => mapSet acc m.id m) acc).map Prod.fst) ↔
        k ∈ acc.map Prod.fst ∨ k ∈ msgs.map (·.id) by
    simpa [buildIndex] using h []
  induction msgs with
  | nil => intro acc; simp
  | cons m msgs ih =>
    intro acc
    simp only [List.foldl_cons, ih, mem_keys_mapSet, List.map_cons, List.mem_cons]
    tauto

theorem updateTimeSeries_fields (s : LiveState) (msg : MessageRecord) :
    (updateTimeSeries s msg).messages = s.messages ∧
    (updateTimeSeries s msg).messageIndex = s.messageIndex ∧
    (updateTimeSeries s msg).rateLimitEvents = s.rateLimitEvents ∧
    (updateTimeSeries s msg).lastUpdate = s.lastUpdate ∧
    (updateTimeSeries s msg).budgets = s.budgets := by
  unfold updateTimeSeries
  rcases msg.tokens with _ | tk
  · simp
  · by_cases h : s.timeSeries.any
      (fun p => p.timestamp == msg.timeCreated.fdiv 60000 * 60000) <;>
      simp [h]

theorem addMessage_of_dup (s : LiveState) (msg : MessageRecord) (now : Int)
    (h : mapHas s.messageIndex msg.id = true) :
    addMessage s msg now = (s, false) := by
  unfold addMessage
  rw [if_pos h]

theorem addMessage_messages (s : LiveState) (msg : MessageRecord) (now : Int)
    (h : mapHas s.messageIndex msg.id = false) :
    (addMessage s msg now).1.messages = List.insertionSort msgLe (s.messages ++ [msg]) := by
  unfold addMessage
  rw [if_neg (by simp [h])]
  exact (updateTimeSeries_fields _ msg).1

theorem addMessage_messageIndex (s : LiveState) (msg : MessageRecord) (now : Int)
    (h : mapHas s.messageIndex msg.id = false) :
    (addMessage s msg now).1.messageIndex = mapSet s.messageIndex msg.id msg := by
  unfold addMessage
  rw [if_neg (by simp [h])]
  exact (updateTimeSeries_fields _ msg).2.1

theorem addMessage_rateLimitEvents (s : LiveState) (msg : MessageRecord) (now : Int) :
    (addMessage s msg now).1.rateLimitEvents = s.rateLimitEvents := by
  unfold addMessage
  by_cases h : mapHas s.messageIndex msg.id
  · rw [if_pos h]
  · rw [if_neg h]
    exact (updateTimeSeries_fields _ msg).2.2.1

theorem addMessage_snd (s : LiveState) (msg : MessageRecord) (now : Int) :
    (addMessage s msg now).2 = !(mapHas s.messageIndex msg.id) := by
  unfold addMessage
  by_cases h : mapHas s.messageIndex msg.id <;> simp [h]

theorem addMessage_length (s : LiveState) (msg : MessageRecord) (now : Int) :
    (addMessage s msg now).1.messages.length =
      s.messages.length + (if (addMessage s msg now).2 then 1 else 0) := by
  by_cases h : mapHas s.messageIndex msg.id
  · rw [addMessage_of_dup s msg now h]; simp
  · have hb : mapHas s.messageIndex msg.id = false := by simpa using h
    rw [addMessage_messages s msg now hb]
    rw [addMessage_snd]
    rw [hb]
    have := (List.perm_insertionSort msgLe (s.messages ++ [msg])).length_eq
    simp [this]

theorem addMessages_fst_foldl (msgs : List MessageRecord) (now : Int) :
    ∀ (s : LiveState) (n : Nat),
      (msgs.foldl
        (fun acc msg =>
          let r := addMessage acc.1 msg now
          (r.1, acc.2 + if r.2 then 1 else 0))
        (s, n)).1 =
      msgs.foldl (fun st msg => (addMessage st msg now).1) s := by
  induction msgs with
  | nil => intro s n; rfl
  | cons m msgs ih =>
    intro s n
    simp only [List.foldl_cons]
    exact ih _ _

theorem addMessages_length (msgs : List MessageRecord) (now : Int) :
    ∀ (s : LiveState) (n : Nat),
      (msgs.foldl
        (fun acc msg =>
          let r := addMessage acc.1 msg now
          (r.1, acc.2 + if r.2 then 1 else 0))
        (s, n)).1.messages.length + n =
      s.messages.length +
        (msgs.foldl
          (fun acc msg =>
            let r := addMessage acc.1 msg now
            (r.1, acc.2 + if r.2 then 1 else 0))
          (s, n)).2 := by
  induction msgs with
  | nil => intro s n; simp
  | cons m msgs ih =>
    intro s n
    simp only [List.foldl_cons]
    have hlen := addMessage_length s m now
    have := ih (addMessage s m now).1 (n + if (addMessage s m now).2 then 1 else 0)
    by_cases h : (addMessage s m now).2 <;> simp [h] at hlen this ⊢ <;> omega

theorem sum_bucketAdd (ts : List TimeSeriesPoint) (b : Int) (tk : Nat) (c : ℚ)
    (h : ts.any (fun p => p.timestamp == b) = true) :
    ((bucketAdd ts b tk c).map (·.tokens)).sum = (ts.map (·.tokens)).sum + tk ∧
    ((bucketAdd ts b tk c).map (·.cost)).sum = (ts.map (·.cost)).sum + c := by
  induction ts with
  | nil => simp at h
  | cons p rest ih =>
    by_cases hp : p.timestamp == b
    · unfold bucketAdd
      rw [if_pos hp]
      constructor
      · simp only [List.map_cons, List.sum_cons]; omega
      · simp only [List.map_cons, List.sum_cons]; ring
    · unfold bucketAdd
      rw [if_neg hp]
      have hrest : rest.any (fun p => p.timestamp == b) = true := by
        rcases List.any_eq_true.mp h with ⟨q, hq, hqb⟩
        rcases List.mem_cons.mp hq with rfl | hq'
        · exact absurd hqb (by simpa using hp)
        · exact List.any_eq_true.mpr ⟨q, hq', hqb⟩
      obtain ⟨h1, h2⟩ := ih hrest
      constructor
      · simp only [List.map_cons, List.sum_cons, h1]; omega
      · simp only [List.map_cons, List.sum_cons, h2]; ring

theorem mem_throttledProviders (rl : List RateLimitEvent) (k : String) :
    k ∈ throttledProviders rl ↔
      3 ≤ (rl.filter (fun e => e.providerID == k)).length := by
  suffices hs : ∀ (ys : List RateLimitEvent) (acc : List String),
      k ∈ ys.foldl
        (fun acc event =>
          if 3 ≤ (rl.filter (fun e => e.providerID == event.providerID)).length then
            if acc.contains event.providerID then acc else acc ++ [event.providerID]
          else acc)
        acc ↔
      k ∈ acc ∨ ∃ e ∈ ys, e.providerID = k ∧
        3 ≤ (rl.filter (fun e' => e'.providerID == e.providerID)).length by
    rw [throttledProviders, hs rl []]
    simp only [List.mem_nil_iff, false_or]
    constructor
    · rintro ⟨e, _, rfl, hc⟩
      exact hc
    · intro hc
      have hlen : 0 < (rl.filter (fun e => e.providerID == k)).length := by omega
      rcases List.exists_mem_of_length_pos hlen with ⟨e, he⟩
      have hmem := List.mem_filter.mp he
      have hek : e.providerID = k := by simpa using hmem.2
      exact ⟨e, hmem.1, hek, by rw [hek]; exact hc⟩
  intro ys
  induction ys with
  | nil => intro acc; simp
  | cons ev ys ih =>
    intro acc
    simp only [List.foldl_cons]
    by_cases hcond : 3 ≤ (rl.filter (fun e => e.providerID == ev.providerID)).length
    · rw [if_pos hcond]
      by_cases hmem : acc.contains ev.providerID
      · rw [if_pos hmem, ih]
        have hin : ev.providerID ∈ acc := by simpa using hmem
        constructor
        · rintro (ha | ⟨e, he, hk, hc⟩)
          · exact Or.inl ha
          · exact Or.inr ⟨e, List.mem_cons_of_mem ev he, hk, hc⟩
        · rintro (ha | ⟨e, he, hk, hc⟩)
          · exact Or.inl ha
          · rcases List.mem_cons.mp he with rfl | he'
            · exact Or.inl (hk ▸ hin)
            · exact Or.inr ⟨e, he', hk, hc⟩
      · rw [if_neg hmem, ih]
        simp only [List.mem_append, List.mem_singleton]
        constructor
        · rintro ((ha | rfl) | ⟨e, he, hk, hc⟩)
          · exact Or.inl ha
          · exact Or.inr ⟨ev, List.mem_cons_self ev ys, rfl, hcond⟩
          · exact Or.inr ⟨e, List.mem_cons_of_mem ev he, hk, hc⟩
        · rintro (ha | ⟨e, he, hk, hc⟩)
          · exact Or.inl (Or.inl ha)
          · rcases List.mem_cons.mp he with rfl | he'
            · exact Or.inl (Or.inr hk.symm)
            · exact Or.inr ⟨e, he', hk, hc⟩
    · rw [if_neg hcond, ih]
      constructor
      · rintro (ha | ⟨e, he, hk, hc⟩)
        · exact Or.inl ha
        · exact Or.inr ⟨e, List.mem_cons_of_mem ev he, hk, hc⟩
      · rintro (ha | ⟨e, he, hk, hc⟩)
        · exact Or.inl ha
        · rcases List.mem_cons.mp he with rfl | he'
          · exact absurd hc hcond
          · exact Or.inr ⟨e, he', hk, hc⟩

theorem sum_map_add3 {α : Type} (l : List α) (f g h : α → Nat) :
    (l.map fun x => f x + g x + h x).sum =
      (l.map f).sum + (l.map g).sum + (l.map h).sum := by
  induction l with
  | nil => simp
  | cons x l ih => simp only [List.map_cons, List.sum_cons, ih]; omega

/-! ### Claim theorems -/

/-- C3: `computeWindowStats` returns a record with
`totalTokens = totalInput + totalOutput + totalReasoning` exactly; every
numeric field accumulates only over messages carrying token data (the stats
of a list equal the stats of its token-bearing sublist, and each field is
the corresponding sum/count over that sublist); an absent cost counts as 0
(`msgCostD` is `cost.getD 0`). -/
theorem computeWindowStats_sum_invariant (msgs : List MessageRecord) :
    (computeWindowStats msgs).totalTokens =
      (computeWindowStats msgs).totalInput + (computeWindowStats msgs).totalOutput +
        (computeWindowStats msgs).totalReasoning ∧
    computeWindowStats msgs = computeWindowStats (msgs.filter hasTokenData) ∧
    (computeWindowStats msgs).totalInput = ((msgs.filter hasTokenData).map msgInput).sum ∧
    (computeWindowStats msgs).totalOutput = ((msgs.filter hasTokenData).map msgOutput).sum ∧
    (computeWindowStats msgs).totalReasoning =
      ((msgs.filter hasTokenData).map msgReasoning).sum ∧
    (computeWindowStats msgs).totalCost = ((msgs.filter hasTokenData).map msgCostD).sum ∧
    (computeWindowStats msgs).messageCount = (msgs.filter hasTokenData).length := by
  refine ⟨?_, ?_, ?_, ?_, ?_, ?_, ?_⟩
  · rw [computeWindowStats_closed]
    have hmap : (msgs.filter hasTokenData).map msgTokenCount =
        (msgs.filter hasTokenData).map fun m => msgInput m + msgOutput m + msgReasoning m := by
      apply List.map_congr_left
      intro m _
      unfold msgTokenCount msgInput msgOutput msgReasoning
      rcases m.tokens with _ | tk <;> rfl
    simp only [hmap, sum_map_add3]
  · rw [computeWindowStats_closed, computeWindowStats_closed, List.filter_filter]
    simp
  · rw [computeWindowStats_closed]
  · rw [computeWindowStats_closed]
  · rw [computeWindowStats_closed]
  · rw [computeWindowStats_closed]
  · rw [computeWindowStats_closed]

/-- C1 counterexample: starting from a state that already holds the id
`"a"`, two further `addMessage` calls with that id grow the ledger by 0,
refuting "calling addMessage twice with the same id from any state grows
the ledger by exactly 1 over the two calls". -/
theorem addMessage_twice_counterexample :
    ¬ ((addMessage (addMessage (addMessage (createInitialState 0) cMsgA 0).1 cMsgA 1).1
          cMsgA 2).1.messages.length =
        (addMessage (createInitialState 0) cMsgA 0).1.messages.length + 1) := by
  decide

/-- C1 (amended): for every state and message whose id already occurs in the
identity index, `addMessage` returns false and changes nothing; calling
`addMessage` twice with the same id from any state whose index does not yet
hold that id grows the ledger by exactly 1 over the two calls, with the
second call returning "not added"; and `addMessages` returns exactly the
number of elements actually added after per-element deduplication. -/
theorem addMessage_idempotent (s : LiveState) (m : MessageRecord)
    (l : List MessageRecord) (now now2 : Int) :
    (mapHas s.messageIndex m.id = true → addMessage s m now = (s, false)) ∧
    (mapHas s.messageIndex m.id = false →
      (addMessage (addMessage s m now).1 m now2).1.messages.length =
          s.messages.length + 1 ∧
      (addMessage (addMessage s m now).1 m now2).2 = false) ∧
    (addMessages s l now).1.messages.length =
      s.messages.length + (addMessages s l now).2 := by
  refine ⟨fun h => addMessage_of_dup s m now h, fun h => ?_, ?_⟩
  · have hidx : (addMessage s m now).1.messageIndex = mapSet s.messageIndex m.id m :=
      addMessage_messageIndex s m now h
    have hdup : mapHas (addMessage s m now).1.messageIndex m.id = true := by
      rw [hidx]; exact mapHas_mapSet_self _ _ _
    have hsecond := addMessage_of_dup (addMessage s m now).1 m now2 hdup
    have hlen1 := addMessage_length s m now
    rw [addMessage_snd, h] at hlen1
    constructor
    · rw [hsecond]
      simpa using hlen1
    · rw [hsecond]
  · have := addMessages_length l now s 0
    unfold addMessages
    omega

/-- C1 witness: the amended statement instantiated at the empty initial
state and a concrete message. -/
theorem addMessage_idempotent_witness :
    (addMessage (addMessage (createInitialState 0) cMsgA 0).1 cMsgA 1).1.messages.length =
        (createInitialState 0).messages.length + 1 ∧
    (addMessage (addMessage (createInitialState 0) cMsgA 0).1 cMsgA 1).2 = false :=
  (addMessage_idempotent (createInitialState 0) cMsgA [] 0 1).2.1 (by decide)

theorem sorted_preserved_addMessage (s : LiveState) (m : MessageRecord) (now : Int)
    (h : s.messages.Sorted msgLe ∧ s.rateLimitEvents.Sorted rlLe) :
    (addMessage s m now).1.messages.Sorted msgLe ∧
    (addMessage s m now).1.rateLimitEvents.Sorted rlLe := by
  by_cases hdup : mapHas s.messageIndex m.id
  · rw [addMessage_of_dup s m now hdup]
    exact h
  · have hb : mapHas s.messageIndex m.id = false := by simpa using hdup
    rw [addMessage_messages s m now hb, addMessage_rateLimitEvents]
    exact ⟨List.sorted_insertionSort msgLe _, h.2⟩

theorem sorted_preserved_foldl (msgs : List MessageRecord) (now : Int) :
    ∀ s : LiveState, s.messages.Sorted msgLe ∧ s.rateLimitEvents.Sorted rlLe →
      (msgs.foldl (fun st msg => (addMessage st msg now).1) s).messages.Sorted msgLe ∧
      (msgs.foldl (fun st msg => (addMessage st msg now).1) s).rateLimitEvents.Sorted rlLe := by
  induction msgs with
  | nil => intro s h; simpa using h
  | cons m ms ih =>
    intro s h
    simp only [List.foldl_cons]
    exact ih _ (sorted_preserved_addMessage s m now h)

/-- C2: starting from the initial state, after any sequence of `addMessage`
/ `addMessages` / `addRateLimitEvent` calls in arbitrary timestamp order,
the message ledger is sorted ascending by `time.created` and the rate-limit
ledger is sorted ascending by `timestamp`; since `Reach` closes over every
mutation, every post-mutation state satisfies the ordering. -/
theorem reach_ledgers_sorted (s : LiveState) (h : Reach s) :
    s.messages.Sorted msgLe ∧ s.rateLimitEvents.Sorted rlLe := by
  induction h with
  | init now => exact ⟨List.sorted_nil, List.sorted_nil⟩
  | addMsg msg now _ ih => exact sorted_preserved_addMessage _ msg now ih
  | addMsgs msgs now _ ih =>
    rw [addMessages, addMessages_fst_foldl]
    exact sorted_preserved_foldl msgs now _ ih
  | addRL e _ ih =>
    unfold addRateLimitEvent
    exact ⟨ih.1, List.sorted_insertionSort rlLe _⟩

/-- C2 witness: the ordering invariant at a concrete reachable state. -/
theorem reach_ledgers_sorted_witness :
    (addRateLimitEvent (addMessage (createInitialState 0) cMsgTok 5).1
        cEvt1).messages.Sorted msgLe ∧
    (addRateLimitEvent (addMessage (createInitialState 0) cMsgTok 5).1
        cEvt1).rateLimitEvents.Sorted rlLe :=
  reach_ledgers_sorted _ (Reach.addRL cEvt1 (Reach.addMsg cMsgTok 5 (Reach.init 0)))

theorem totals_append_single (msgs : List MessageRecord) (m : MessageRecord) :
    (computeWindowStats (msgs ++ [m])).totalTokens =
      (computeWindowStats msgs).totalTokens +
        (if hasTokenData m then msgTokenCount m else 0) ∧
    (computeWindowStats (msgs ++ [m])).totalCost =
      (computeWindowStats msgs).totalCost +
        (if hasTokenData m then msgCostD m else 0) := by
  rw [computeWindowStats_closed, computeWindowStats_closed]
  by_cases h : hasTokenData m <;>
    simp [List.filter_append, List.filter_cons, h]

theorem sums_updateTimeSeries (s : LiveState) (m : MessageRecord) :
    ((updateTimeSeries s m).timeSeries.map (·.tokens)).sum =
      (s.timeSeries.map (·.tokens)).sum +
        (if hasTokenData m then msgTokenCount m else 0) ∧
    ((updateTimeSeries s m).timeSeries.map (·.cost)).sum =
      (s.timeSeries.map (·.cost)).sum +
        (if hasTokenData m then msgCostD m else 0) := by
  rcases hm : m.tokens with _ | tk
  · simp [updateTimeSeries, hm, hasTokenData]
  · have hht : hasTokenData m = true := by simp [hasTokenData, hm]
    have hmc : msgTokenCount m = tk.input + tk.output + tk.reasoning := by
      simp [msgTokenCount, hm]
    by_cases hany : s.timeSeries.any
        (fun p => p.timestamp == m.timeCreated.fdiv 60000 * 60000)
    · obtain ⟨ht, hc⟩ := sum_bucketAdd s.timeSeries (m.timeCreated.fdiv 60000 * 60000)
        (tk.input + tk.output + tk.reasoning) (m.cost.getD 0) hany
      simp only [updateTimeSeries, hm, hany, if_true]
      rw [ht, hc]
      simp [hht, hmc, msgCostD]
    · have hperm := List.perm_insertionSort tsLe (s.timeSeries ++
        [⟨m.timeCreated.fdiv 60000 * 60000, tk.input + tk.output + tk.reasoning,
          m.cost.getD 0⟩])
      simp only [updateTimeSeries, hm, hany, Bool.false_eq_true, if_false]
      constructor
      · rw [(hperm.map (·.tokens)).sum_eq]
        simp [hht, hmc]
      · rw [(hperm.map (·.cost)).sum_eq]
        simp [hht, msgCostD]

theorem tsConsistent_addMessage (s : LiveState) (m : MessageRecord) (now : Int)
    (h : (s.timeSeries.map (·.tokens)).sum = (getAllTimeStats s).totalTokens ∧
         (s.timeSeries.map (·.cost)).sum = (getAllTimeStats s).totalCost) :
    ((addMessage s m now).1.timeSeries.map (·.tokens)).sum =
        (getAllTimeStats (addMessage s m now).1).totalTokens ∧
    ((addMessage s m now).1.timeSeries.map (·.cost)).sum =
        (getAllTimeStats (addMessage s m now).1).totalCost := by
  by_cases hdup : mapHas s.messageIndex m.id
  · rw [addMessage_of_dup s m now hdup]
    exact h
  · have hb : mapHas s.messageIndex m.id = false := by simpa using hdup
    unfold addMessage
    rw [if_neg (by simp [hb])]
    set s₁ : LiveState := { s with
      messageIndex := mapSet s.messageIndex m.id m,
      messages := List.insertionSort msgLe (s.messages ++ [m]),
      lastUpdate := now } with hs₁
    have hmsg : (updateTimeSeries s₁ m).messages = s₁.messages :=
      (updateTimeSeries_fields s₁ m).1
    have hstats : getAllTimeStats (updateTimeSeries s₁ m) =
        computeWindowStats (s.messages ++ [m]) := by
      unfold getAllTimeStats
      rw [hmsg]
      exact computeWindowStats_perm (by
        simpa [hs₁] using List.perm_insertionSort msgLe (s.messages ++ [m]))
    obtain ⟨ht, hc⟩ := sums_updateTimeSeries s₁ m
    obtain ⟨ht2, hc2⟩ := totals_append_single s.messages m
    have hts₁ : s₁.timeSeries = s.timeSeries := rfl
    constructor
    · rw [ht, hstats, ht2, hts₁, h.1]
      rfl
    · rw [hc, hstats, hc2, hts₁, h.2]
      rfl

theorem tsConsistent_foldl (msgs : List MessageRecord) (now : Int) :
    ∀ s : LiveState,
      ((s.timeSeries.map (·.tokens)).sum = (getAllTimeStats s).totalTokens ∧
       (s.timeSeries.map (·.cost)).sum = (getAllTimeStats s).totalCost) →
      (((msgs.foldl (fun st msg => (addMessage st msg now).1) s).timeSeries.map
          (·.tokens)).sum =
        (getAllTimeStats (msgs.foldl (fun st msg => (addMessage st msg now).1) s)).totalTokens ∧
       ((msgs.foldl (fun st msg => (addMessage st msg now).1) s).timeSeries.map
          (·.cost)).sum =
        (getAllTimeStats (msgs.foldl (fun st msg => (addMessage st msg now).1) s)).totalCost) := by
  induction msgs with
  | nil => intro s h; simpa using h
  | cons m ms ih =>
    intro s h
    simp only [List.foldl_cons]
    exact ih _ (tsConsistent_addMessage s m now h)

/-- C10: over any reachable state (sequences of `addMessage` / `addMessages`
/ `addRateLimitEvent` from the initial state, no pruning) the time series
stays consistent with the ledger: the sum of its `tokens` fields equals
`getAllTimeStats(state).totalTokens` and the sum of its `cost` fields equals
`getAllTimeStats(state).totalCost`. -/
theorem reach_timeSeries_consistent (s : LiveState) (h : Reach s) :
    ((s.timeSeries.map (·.tokens)).sum = (getAllTimeStats s).totalTokens) ∧
    ((s.timeSeries.map (·.cost)).sum = (getAllTimeStats s).totalCost) := by
  induction h with
  | init now => exact ⟨rfl, rfl⟩
  | addMsg msg now _ ih => exact tsConsistent_addMessage _ msg now ih
  | addMsgs msgs now _ ih =>
    rw [addMessages, addMessages_fst_foldl]
    exact tsConsistent_foldl msgs now _ ih
  | addRL e _ ih =>
    simpa [addRateLimitEvent, getAllTimeStats] using ih

/-- C10 witness: consistency at a concrete reachable state holding one
token-bearing message. -/
theorem reach_timeSeries_consistent_witness :
    (((addMessage (createInitialState 0) cMsgTok 5).1.timeSeries.map (·.tokens)).sum =
        (getAllTimeStats (addMessage (createInitialState 0) cMsgTok 5).1).totalTokens) ∧
    (((addMessage (createInitialState 0) cMsgTok 5).1.timeSeries.map (·.cost)).sum =
        (getAllTimeStats (addMessage (createInitialState 0) cMsgTok 5).1).totalCost) :=
  reach_timeSeries_consistent _ (Reach.addMsg cMsgTok 5 (Reach.init 0))

theorem filter_filter_self {α : Type} (p : α → Bool) (l : List α) :
    (l.filter p).filter p = l.filter p := by
  rw [List.filter_filter]
  simp

/-- C8: `pruneOldData` keeps exactly the messages, rate-limit events and
time-series points with timestamp at least `now - maxAge` (removing exactly
the strictly older ones), keeps survivors in their previous relative order
(each pruned ledger is a sublist of the original), rebuilds the identity
index to contain exactly the ids of the retained messages, and is
idempotent at a fixed instant. -/
theorem pruneOldData_spec (s : LiveState) (now maxAgeMs : Int) :
    (∀ m : MessageRecord, m ∈ (pruneOldData s now maxAgeMs).messages ↔
        m ∈ s.messages ∧ now - maxAgeMs ≤ m.timeCreated) ∧
    (∀ e : RateLimitEvent, e ∈ (pruneOldData s now maxAgeMs).rateLimitEvents ↔
        e ∈ s.rateLimitEvents ∧ now - maxAgeMs ≤ e.timestamp) ∧
    (∀ p : TimeSeriesPoint, p ∈ (pruneOldData s now maxAgeMs).timeSeries ↔
        p ∈ s.timeSeries ∧ now - maxAgeMs ≤ p.timestamp) ∧
    ((pruneOldData s now maxAgeMs).messages.Sublist s.messages) ∧
    ((pruneOldData s now maxAgeMs).rateLimitEvents.Sublist s.rateLimitEvents) ∧
    ((pruneOldData s now maxAgeMs).timeSeries.Sublist s.timeSeries) ∧
    (∀ k : String, k ∈ (pruneOldData s now maxAgeMs).messageIndex.map Prod.fst ↔
        k ∈ (pruneOldData s now maxAgeMs).messages.map (·.id)) ∧
    pruneOldData (pruneOldData s now maxAgeMs) now maxAgeMs =
      pruneOldData s now maxAgeMs := by
  refine ⟨?_, ?_, ?_, ?_, ?_, ?_, ?_, ?_⟩
  · intro m; simp [pruneOldData, List.mem_filter]
  · intro e; simp [pruneOldData, List.mem_filter]
  · intro p; simp [pruneOldData, List.mem_filter]
  · exact List.filter_sublist s.messages
  · exact List.filter_sublist s.rateLimitEvents
  · exact List.filter_sublist s.timeSeries
  · intro k
    exact mem_keys_buildIndex _ k
  · simp [pruneOldData, filter_filter_self]

/-- C4: the month-to-date subset is exactly the messages with
`time.created >= monthStart` (so the boundary instant is included and one
millisecond earlier is excluded), all-time stats fold the full ledger, and
the end-to-end scenario of spec §8 (messages at `monthStart + 1000` with
tokens 10/20/0 and `monthStart - 1000` with tokens 5/5/0) yields MTD
`totalTokens = 30`, `messageCount = 1` and all-time `totalTokens = 40`,
`messageCount = 2`. -/
theorem mtd_boundary_scenario (s : LiveState) (ms now : Int) (m : MessageRecord) :
    (m ∈ getMessagesMTD s ms ↔ m ∈ s.messages ∧ ms ≤ m.timeCreated) ∧
    getAllTimeStats s = computeWindowStats s.messages ∧
    (getMTDStats
      (addMessages (createInitialState now) [scenarioMsgA ms, scenarioMsgB ms] now).1
      ms).totalTokens = 30 ∧
    (getMTDStats
      (addMessages (createInitialState now) [scenarioMsgA ms, scenarioMsgB ms] now).1
      ms).messageCount = 1 ∧
    (getAllTimeStats
      (addMessages (createInitialState now) [scenarioMsgA ms, scenarioMsgB ms] now).1).totalTokens = 40 ∧
    (getAllTimeStats
      (addMessages (createInitialState now) [scenarioMsgA ms, scenarioMsgB ms] now).1).messageCount = 2 := by
  refine ⟨by simp [getMessagesMTD, List.mem_filter], rfl, ?_⟩
  have hfst : (addMessages (createInitialState now)
      [scenarioMsgA ms, scenarioMsgB ms] now).1 =
      (addMessage (addMessage (createInitialState now) (scenarioMsgA ms) now).1
        (scenarioMsgB ms) now).1 := by
    rw [addMessages, addMessages_fst_foldl]
    rfl
  have h1 : mapHas (createInitialState now).messageIndex (scenarioMsgA ms).id = false := rfl
  have hs1m : (addMessage (createInitialState now) (scenarioMsgA ms) now).1.messages =
      [scenarioMsgA ms] := by
    rw [addMessage_messages _ _ _ h1]
    rfl
  have hs1i : (addMessage (createInitialState now) (scenarioMsgA ms) now).1.messageIndex =
      [((scenarioMsgA ms).id, scenarioMsgA ms)] := by
    rw [addMessage_messageIndex _ _ _ h1]
    rfl
  have h2 : mapHas (addMessage (createInitialState now) (scenarioMsgA ms) now).1.messageIndex
      (scenarioMsgB ms).id = false := by
    rw [hs1i]
    rfl
  have hABle : ¬ msgLe (scenarioMsgA ms) (scenarioMsgB ms) := by
    simp only [msgLe, scenarioMsgA, scenarioMsgB]
    omega
  have hstm : (addMessage (addMessage (createInitialState now) (scenarioMsgA ms) now).1
      (scenarioMsgB ms) now).1.messages = [scenarioMsgB ms, scenarioMsgA ms] := by
    rw [addMessage_messages _ _ _ h2, hs1m]
    simp [List.insertionSort, List.orderedInsert, hABle]
  have hA : ms ≤ (scenarioMsgA ms).timeCreated := by
    simp only [scenarioMsgA]
    omega
  have hB : ¬ ms ≤ (scenarioMsgB ms).timeCreated := by
    simp only [scenarioMsgB]
    omega
  have hmtd : getMessagesMTD (addMessage (addMessage (createInitialState now)
      (scenarioMsgA ms) now).1 (scenarioMsgB ms) now).1 ms = [scenarioMsgA ms] := by
    unfold getMessagesMTD
    rw [hstm]
    simp [hA, hB]
  rw [hfst]
  refine ⟨?_, ?_, ?_, ?_⟩
  · rw [getMTDStats, hmtd]
    rfl
  · rw [getMTDStats, hmtd]
    rfl
  · rw [getAllTimeStats, hstm]
    rfl
  · rw [getAllTimeStats, hstm]
    rfl

theorem windowCount_eq (state : LiveState) (now : Int) (k : String) :
    ((getRateLimitsInWindow state (5 * 60 * 1000) now).filter
        (fun e => e.providerID == k)).length =
      state.rateLimitEvents.countP
        (fun e => e.providerID == k && decide (now - 5 * 60 * 1000 ≤ e.timestamp)) := by
  rw [← List.countP_eq_length_filter, getRateLimitsInWindow, List.countP_filter]

theorem rateLimitGroupCount_eq (state : LiveState) (now : Int) (k : String) :
    (lookupGroup (groupByKey (fun e => e.providerID)
        (getRateLimitsInWindow state (5 * 60 * 1000) now)) k).length =
      state.rateLimitEvents.countP
        (fun e => e.providerID == k && decide (now - 5 * 60 * 1000 ≤ e.timestamp)) := by
  rw [lookupGroup_groupByKey]
  exact windowCount_eq state now k

theorem computeHealthStatus_eq_spec (now : Int) (es : List RateLimitEvent) :
    computeHealthStatus now es.length ((es.map (·.timestamp)).max?) =
      healthStatusSpec now es.length ((es.map (·.timestamp)).max?) := by
  cases es with
  | nil => rfl
  | cons e es =>
    unfold computeHealthStatus healthStatusSpec
    by_cases h3 : 3 ≤ (e :: es).length
    · rw [if_pos h3, if_pos h3]
    · rw [if_neg h3, if_neg h3, if_pos (by simp), if_pos (by simp)]

theorem providerEntry_providerID (state : LiveState) (now : Int)
    (groups : List (String × List MessageRecord))
    (rlg : List (String × List RateLimitEvent)) (k : String) :
    (providerEntry state now groups rlg k).providerID = k := rfl

theorem providerEntry_health (state : LiveState) (now : Int)
    (groups : List (String × List MessageRecord))
    (rlg : List (String × List RateLimitEvent)) (k : String) :
    (providerEntry state now groups rlg k).health =
      ⟨computeHealthStatus now (lookupGroup rlg k).length
          (((lookupGroup rlg k).map (·.timestamp)).max?),
        (lookupGroup rlg k).length,
        ((lookupGroup rlg k).map (·.timestamp)).max?⟩ := rfl

/-- C5: every provider entry of `computeProviderStats` carries as
`rateLimitCount5m` the count of that provider's rate-limit events with
`timestamp >= now - 5min`, and its status equals `healthStatusSpec`, the
branch order written in the spec (count ≥ 3 throttled, else count ≥ 1 warn,
else warn when a last-rate-limit timestamp lies within 5 minutes, else ok);
in particular 3 in-window events give throttled and 0 events with no prior
activity give ok. -/
theorem providerStats_health (state : LiveState) (msgs : List MessageRecord)
    (now : Int) (p : ProviderWindowStats)
    (hp : p ∈ computeProviderStats state msgs now) :
    p.health.rateLimitCount5m =
      state.rateLimitEvents.countP
        (fun e => e.providerID == p.providerID &&
          decide (now - 5 * 60 * 1000 ≤ e.timestamp)) ∧
    p.health.status =
      healthStatusSpec now p.health.rateLimitCount5m p.health.lastRateLimit ∧
    (3 ≤ p.health.rateLimitCount5m → p.health.status = .throttled) ∧
    (p.health.rateLimitCount5m = 0 ∧ p.health.lastRateLimit = none →
      p.health.status = .ok) := by
  simp only [computeProviderStats] at hp
  rw [List.Perm.mem_iff (List.perm_insertionSort provCostGe _)] at hp
  obtain ⟨k, hk, rfl⟩ := List.mem_map.mp hp
  rw [providerEntry_providerID, providerEntry_health]
  refine ⟨rateLimitGroupCount_eq state now k, computeHealthStatus_eq_spec now _, ?_, ?_⟩
  · intro h3
    unfold computeHealthStatus
    rw [if_pos h3]
  · rintro ⟨hc, _⟩
    have hnil : lookupGroup (groupByKey (fun e => e.providerID)
        (getRateLimitsInWindow state (5 * 60 * 1000) now)) k = [] :=
      List.length_eq_zero.mp hc
    rw [hnil]
    rfl

/-- C5 witness: the provider entry of "p" in a concrete state with three
in-window rate-limit events, via the theorem. -/
theorem providerStats_health_witness :
    cProviderEntry.health.rateLimitCount5m =
      cStateRL.rateLimitEvents.countP
        (fun e => e.providerID == cProviderEntry.providerID &&
          decide (200 - 5 * 60 * 1000 ≤ e.timestamp)) ∧
    cProviderEntry.health.status =
      healthStatusSpec 200 cProviderEntry.health.rateLimitCount5m
        cProviderEntry.health.lastRateLimit ∧
    (3 ≤ cProviderEntry.health.rateLimitCount5m →
      cProviderEntry.health.status = .throttled) ∧
    (cProviderEntry.health.rateLimitCount5m = 0 ∧
        cProviderEntry.health.lastRateLimit = none →
      cProviderEntry.health.status = .ok) :=
  providerStats_health cStateRL [] 200 cProviderEntry (by decide)

theorem mem_contains_iff (l : List String) (a : String) : l.contains a ↔ a ∈ l := by
  rw [List.contains]
  exact List.elem_iff

theorem modelEntry_modelID (now : Int) (th : List String) (ts : WindowStats)
    (g : String × List MessageRecord) : (modelEntry now th ts g).modelID = g.1 := rfl

theorem modelEntry_providerID (now : Int) (th : List String) (ts : WindowStats)
    (g : String × List MessageRecord) :
    (modelEntry now th ts g).providerID = orUnknown (g.2.head?.bind (·.providerID)) := rfl

theorem modelEntry_lastSeen (now : Int) (th : List String) (ts : WindowStats)
    (g : String × List MessageRecord) :
    (modelEntry now th ts g).lastSeen = ((g.2.map (·.timeCreated)).max?).getD 0 := rfl

theorem modelEntry_status (now : Int) (th : List String) (ts : WindowStats)
    (g : String × List MessageRecord) :
    (modelEntry now th ts g).health.status =
      computeModelHealthStatus now (((g.2.map (·.timeCreated)).max?).getD 0)
        (th.contains (orUnknown (g.2.head?.bind (·.providerID)))) := rfl

/-- C6: every model entry of `computeModelStats` comes from a nonempty
model group; its provider id is taken from the group's first message
(defaulting to "unknown"), its `lastSeen` is the maximum `time.created` of
the group, and its status is `error` exactly when that provider has ≥ 3
rate-limit events in the trailing 5-minute window, otherwise `stale`
exactly when `now - lastSeen > 30` minutes, otherwise `active` — so a
throttled provider takes precedence over staleness. -/
theorem modelStats_health (state : LiveState) (msgs : List MessageRecord)
    (now : Int) (sm : SortMode) (e : ModelWindowStats)
    (he : e ∈ computeModelStats state msgs now sm) :
    msgs.filter (fun m => orUnknown m.modelID == e.modelID) ≠ [] ∧
    e.providerID = orUnknown
      ((msgs.filter (fun m => orUnknown m.modelID == e.modelID)).head?.bind
        (·.providerID)) ∧
    e.lastSeen =
      (((msgs.filter (fun m => orUnknown m.modelID == e.modelID)).map
        (·.timeCreated)).max?).getD 0 ∧
    e.health.status =
      (if 3 ≤ state.rateLimitEvents.countP
          (fun ev => ev.providerID == e.providerID &&
            decide (now - 5 * 60 * 1000 ≤ ev.timestamp))
        then .error
        else if STALE_THRESHOLD_MS < now - e.lastSeen then .stale else .active) := by
  have hmem : ∃ g ∈ groupByKey (fun m => orUnknown m.modelID) msgs,
      modelEntry now (throttledProviders (getRateLimitsInWindow state (5 * 60 * 1000) now))
        (computeWindowStats msgs) g = e := by
    simp only [computeModelStats] at he
    cases sm
    · rw [List.Perm.mem_iff (List.perm_insertionSort modelCostGe _)] at he
      exact List.mem_map.mp he
    · rw [List.Perm.mem_iff (List.perm_insertionSort modelTokensGe _)] at he
      exact List.mem_map.mp he
    · rw [List.Perm.mem_iff (List.perm_insertionSort modelNameLe _)] at he
      exact List.mem_map.mp he
  obtain ⟨g, hg, rfl⟩ := hmem
  obtain ⟨hval, hne⟩ := mem_groupByKey _ _ hg
  rw [modelEntry_modelID, modelEntry_providerID, modelEntry_lastSeen, modelEntry_status,
    ← hval]
  refine ⟨hne, rfl, rfl, ?_⟩
  have hthr : (throttledProviders (getRateLimitsInWindow state (5 * 60 * 1000) now)).contains
      (orUnknown (g.2.head?.bind (·.providerID))) = true ↔
      3 ≤ state.rateLimitEvents.countP
        (fun ev => ev.providerID == orUnknown (g.2.head?.bind (·.providerID)) &&
          decide (now - 5 * 60 * 1000 ≤ ev.timestamp)) := by
    rw [mem_contains_iff, mem_throttledProviders, ← windowCount_eq]
  by_cases h3 : 3 ≤ state.rateLimitEvents.countP
      (fun ev => ev.providerID == orUnknown (g.2.head?.bind (·.providerID)) &&
        decide (now - 5 * 60 * 1000 ≤ ev.timestamp))
  · rw [if_pos h3]
    have hc := hthr.mpr h3
    unfold computeModelHealthStatus
    rw [hc]
    simp
  · rw [if_neg h3]
    have hc : (throttledProviders (getRateLimitsInWindow state (5 * 60 * 1000) now)).contains
        (orUnknown (g.2.head?.bind (·.providerID))) = false := by
      rcases hb : (throttledProviders (getRateLimitsInWindow state
          (5 * 60 * 1000) now)).contains (orUnknown (g.2.head?.bind (·.providerID))) with _ | _
      · rfl
      · exact absurd (hthr.mp hb) h3
    unfold computeModelHealthStatus
    rw [hc]
    simp

/-- C6 witness: the model entry of the group "unknown" over one concrete
message in a concrete state, via the theorem. -/
theorem modelStats_health_witness :
    [cMsgA].filter (fun m => orUnknown m.modelID == cModelEntry.modelID) ≠ [] ∧
    cModelEntry.providerID = orUnknown
      (([cMsgA].filter (fun m => orUnknown m.modelID == cModelEntry.modelID)).head?.bind
        (·.providerID)) ∧
    cModelEntry.lastSeen =
      ((([cMsgA].filter (fun m => orUnknown m.modelID == cModelEntry.modelID)).map
        (·.timeCreated)).max?).getD 0 ∧
    cModelEntry.health.status =
      (if 3 ≤ cStateRL.rateLimitEvents.countP
          (fun ev => ev.providerID == cModelEntry.providerID &&
            decide (200 - 5 * 60 * 1000 ≤ ev.timestamp))
        then .error
        else if STALE_THRESHOLD_MS < 200 - cModelEntry.lastSeen then .stale
        else .active) :=
  modelStats_health cStateRL [cMsgA] 200 .cost cModelEntry (by decide)

theorem providerEntry_budgetPercent (state : LiveState) (now : Int)
    (groups : List (String × List MessageRecord))
    (rlg : List (String × List RateLimitEvent)) (k : String) :
    (providerEntry state now groups rlg k).budgetPercent =
      (truthyNat ((state.budgets.lookup k).bind (·.monthlyTokens))).map
        (fun mt =>
          ((computeWindowStats (lookupGroup groups k)).totalTokens : ℚ) / (mt : ℚ) * 100) :=
  rfl

theorem providerEntry_budgetCostPercent (state : LiveState) (now : Int)
    (groups : List (String × List MessageRecord))
    (rlg : List (String × List RateLimitEvent)) (k : String) :
    (providerEntry state now groups rlg k).budgetCostPercent =
      (truthyRat ((state.budgets.lookup k).bind (·.monthlyCost))).map
        (fun mc => (computeWindowStats (lookupGroup groups k)).totalCost / mc * 100) :=
  rfl

/-- C7: the `computeProviderStats` result contains exactly the union of the
provider keys of the message groups, of the trailing-5-minute rate-limit
events, and of the budgets configuration (a provider with a budget but no
messages still appears); and for every provider with a configured nonzero
monthly token (resp. cost) ceiling, `budgetPercent = totalTokens / ceiling
* 100` (resp. `budgetCostPercent = totalCost / ceiling * 100`), each
dimension independently. -/
theorem providerStats_keys_budgets (state : LiveState) (msgs : List MessageRecord)
    (now : Int) :
    (∀ k : String,
      (∃ p ∈ computeProviderStats state msgs now, p.providerID = k) ↔
        ((∃ m ∈ msgs, orUnknown m.providerID = k) ∨
         (∃ ev ∈ state.rateLimitEvents,
            now - 5 * 60 * 1000 ≤ ev.timestamp ∧ ev.providerID = k) ∨
         (∃ b : ProviderBudget, (k, b) ∈ state.budgets))) ∧
    (∀ p ∈ computeProviderStats state msgs now, ∀ b : ProviderBudget,
      state.budgets.lookup p.providerID = some b →
      (∀ mt : Nat, b.monthlyTokens = some mt → mt ≠ 0 →
        p.budgetPercent = some ((p.totalTokens : ℚ) / (mt : ℚ) * 100)) ∧
      (∀ mc : ℚ, b.monthlyCost = some mc → mc ≠ 0 →
        p.budgetCostPercent = some (p.totalCost / mc * 100))) := by
  constructor
  · intro k
    constructor
    · rintro ⟨p, hp, rfl⟩
      simp only [computeProviderStats] at hp
      rw [List.Perm.mem_iff (List.perm_insertionSort provCostGe _)] at hp
      obtain ⟨k', hk', rfl⟩ := List.mem_map.mp hp
      rw [providerEntry_providerID]
      rw [mem_dedupKeys] at hk'
      rcases List.mem_append.mp hk' with h12 | h3
      · rcases List.mem_append.mp h12 with h1 | h2
        · exact Or.inl ((mem_keys_groupByKey _ msgs k').mp h1)
        · refine Or.inr (Or.inl ?_)
          obtain ⟨e, he, hek⟩ := (mem_keys_groupByKey _ _ k').mp h2
          obtain ⟨hmem, hcond⟩ := List.mem_filter.mp he
          exact ⟨e, hmem, by simpa using hcond, hek⟩
      · refine Or.inr (Or.inr ?_)
        obtain ⟨kv, hkv, hfst⟩ := List.mem_map.mp h3
        refine ⟨kv.2, ?_⟩
        have heq : (k', kv.2) = kv := by
          obtain ⟨a, b⟩ := kv
          cases hfst
          rfl
        rw [heq]
        exact hkv
    · intro h
      have hk : k ∈ dedupKeys
          ((groupByKey (fun m => orUnknown m.providerID) msgs).map Prod.fst ++
            (groupByKey (fun e => e.providerID)
              (getRateLimitsInWindow state (5 * 60 * 1000) now)).map Prod.fst ++
            state.budgets.map Prod.fst) := by
        rw [mem_dedupKeys, List.mem_append, List.mem_append]
        rcases h with h1 | h2 | h3
        · exact Or.inl (Or.inl ((mem_keys_groupByKey _ msgs k).mpr h1))
        · refine Or.inl (Or.inr ((mem_keys_groupByKey _ _ k).mpr ?_))
          obtain ⟨e, he, hw, hek⟩ := h2
          exact ⟨e, List.mem_filter.mpr ⟨he, by simpa using hw⟩, hek⟩
        · obtain ⟨b, hb⟩ := h3
          exact Or.inr (List.mem_map.mpr ⟨(k, b), hb, rfl⟩)
      refine ⟨providerEntry state now
          (groupByKey (fun m => orUnknown m.providerID) msgs)
          (groupByKey (fun e => e.providerID)
            (getRateLimitsInWindow state (5 * 60 * 1000) now)) k, ?_,
        providerEntry_providerID _ _ _ _ k⟩
      simp only [computeProviderStats]
      rw [List.Perm.mem_iff (List.perm_insertionSort provCostGe _)]
      exact List.mem_map.mpr ⟨k, hk, rfl⟩
  · intro p hp b hb
    simp only [computeProviderStats] at hp
    rw [List.Perm.mem_iff (List.perm_insertionSort provCostGe _)] at hp
    obtain ⟨k, hk, rfl⟩ := List.mem_map.mp hp
    rw [providerEntry_providerID] at hb
    constructor
    · intro mt hmt hmt0
      have ht : truthyNat ((state.budgets.lookup k).bind (·.monthlyTokens)) = some mt := by
        rw [hb]
        simp [truthyNat, hmt, hmt0]
      rw [providerEntry_budgetPercent, ht]
      rfl
    · intro mc hmc hmc0
      have ht : truthyRat ((state.budgets.lookup k).bind (·.monthlyCost)) = some mc := by
        rw [hb]
        simp [truthyRat, hmc, hmc0]
      rw [providerEntry_budgetCostPercent, ht]
      rfl

/-- C7 witness: in a concrete state with a budget for provider "z" and no
traffic, "z" still appears in the provider stats. -/
theorem providerStats_keys_budgets_witness :
    ∃ p ∈ computeProviderStats cStateBudget [] 0, p.providerID = "z" :=
  ((providerStats_keys_budgets cStateBudget [] 0).1 "z").mpr
    (Or.inr (Or.inr ⟨⟨none, none⟩, List.mem_singleton.mpr rfl⟩))

/-- C9: a part record is classified as a rate-limit incident if and only if
its `state.status` is exactly "completed" or "error" and its combined
output/error text matches "429" or, case-insensitively, "too many requests",
"rate limit", "throttl", "quota exceeded" or "capacity"; the incident's
provider is inferred from case-insensitive keyword hints scanned over the
concatenation of the error text and the optional tool name
(claude/sonnet/opus/haiku-family hints give anthropic, gpt/o1/o3/chatgpt
give openai, gemini/vertex give google, openrouter gives openrouter), and
is "unknown" exactly when no hint of the table matches. -/
theorem rateLimitDetection (part : PartRecord) (text : String) (tool : Option String) :
    (isRateLimitError part = true ↔ rateLimitIncidentSpec part) ∧
    (detectProvider text tool = "unknown" ↔
      ∀ pr ∈ PROVIDER_HINTS, ∀ hint ∈ pr.2,
        strContains (strToLower (text ++ tool.getD "")) hint = false) ∧
    detectProvider "Claude hit a rate limit" none = "anthropic" ∧
    detectProvider "sonnet overload" none = "anthropic" ∧
    detectProvider "" (some "GPT tool") = "openai" ∧
    detectProvider "o1 too many requests" none = "openai" ∧
    detectProvider "Gemini quota exceeded" none = "google" ∧
    detectProvider "vertex throttled" none = "google" ∧
    detectProvider "OpenRouter capacity" none = "openrouter" ∧
    detectProvider "HTTP 429" none = "unknown" := by
  refine ⟨?_, ?_, by decide, by decide, by decide, by decide, by decide, by decide,
    by decide, by decide⟩
  · simp only [isRateLimitError, rateLimitIncidentSpec, regexTestCI]
    by_cases hstat : part.state.bind (·.status) = some "completed" ∨
        part.state.bind (·.status) = some "error"
    · have hcond : ¬(¬(part.state.bind (·.status) == some "completed") = true ∧
          ¬(part.state.bind (·.status) == some "error") = true) := by
        rcases hstat with h | h <;> simp [h]
      rw [if_neg hcond, List.any_eq_true]
      constructor
      · rintro ⟨pat, hpat, hc⟩
        exact ⟨hstat, pat, hpat, hc⟩
      · rintro ⟨_, pat, hpat, hc⟩
        exact ⟨pat, hpat, hc⟩
    · have hcond : (¬(part.state.bind (·.status) == some "completed") = true ∧
          ¬(part.state.bind (·.status) == some "error") = true) := by
        push_neg at hstat
        simp [hstat.1, hstat.2]
      rw [if_pos hcond]
      constructor
      · intro hf
        cases hf
      · rintro ⟨hs, _⟩
        exact absurd hs hstat
  · simp only [detectProvider]
    rcases hf : PROVIDER_HINTS.find?
        (fun pr => pr.2.any (fun h => strContains (strToLower (text ++ tool.getD "")) h))
      with _ | pr
    · rw [hf]
      constructor
      · intro _ pr hpr hint hhint
        have hnp := List.find?_eq_none.mp hf pr hpr
        simp only [List.any_eq_true, not_exists] at hnp
        rcases hb : strContains (strToLower (text ++ tool.getD "")) hint with _ | _
        · rfl
        · exact absurd (And.intro hhint hb) (hnp hint)
      · intro _
        rfl
    · rw [hf]
      have hmem := List.mem_of_find?_eq_some hf
      have hsat := List.find?_some hf
      constructor
      · intro hu
        exfalso
        fin_cases hmem <;> simp at hu
      · intro hall
        exfalso
        rcases List.any_eq_true.mp hsat with ⟨hint, hhint, hc⟩
        rw [hall pr hmem hint hhint] at hc
        cases hc

/-- C9 witness: the classification applied to a concrete 429 part record. -/
theorem rateLimitDetection_witness : isRateLimitError cPart429 = true :=
  (rateLimitDetection cPart429 "" none).1.mpr
    ⟨Or.inr rfl, "429", by decide, by decide⟩

end OpencodeUsage
